import Mathlib

/-!
# db-exporter: the result model and its renderers

A shallow embedding of `src/main.go` and `src/render/table.go`.

* Go's `interface{}` cell values are the closed type `Value`.
* A Go `map[string]interface{}` is `GoMap`: a list of entries with pairwise
  distinct keys. The position of an entry in the list carries no meaning; the
  order in which a `range` statement visits the entries is a separate
  parameter (`MapOrder`), because Go leaves it unspecified.
* An `io.Writer` is `Writer`: the bytes written so far, plus whether a write
  succeeds.
* The table writer of `go-pretty` is `TableWriter`: the header, body and footer
  rows appended so far. Its four rendering methods, the JSON, YAML and XML
  encoders and the spreadsheet encoder are library code and are taken as
  parameters (`Lib`).
-/

set_option linter.dupNamespace false

namespace DbExporter

/-! ## Values and strings -/

/-- A dynamically typed Go value (`interface{}`) as produced by the query
extractor or by the renderers themselves. -/
inductive Value where
  | nil
  | str (s : String)
  | int (i : Int)
  | bool (b : Bool)
  | bytes (b : List Nat)
  deriving DecidableEq

/-- The row type of the table writer, `table.Row = []interface{}`. -/
abbrev Row := List Value

/-- Go's `fmt.Sprintf("%d", n)` for a non-negative `int`. -/
def sprintD (n : Nat) : String := toString n

/-- Go's `fmt.Sprintf("%v", v)` on the value kinds of `Value`. -/
def sprintV : Value → String
  | Value.nil => "<nil>"
  | Value.str s => s
  | Value.int i => toString i
  | Value.bool b => if b then "true" else "false"
  | Value.bytes b => "[" ++ " ".intercalate (b.map toString) ++ "]"

/-! ## Maps -/

/-- The assignment `m[k] = v` on the entry list: overwrite the entry of `k`, or
add one. -/
def setEntries (es : List (String × Value)) (k : String) (v : Value) :
    List (String × Value) :=
  match es with
  | [] => [(k, v)]
  | (k', v') :: rest =>
    if k' = k then (k, v) :: rest else (k', v') :: setEntries rest k v

/-- The lookup `v, ok := m[k]` on the entry list. -/
def lookupEntries (es : List (String × Value)) (k : String) : Option Value :=
  match es with
  | [] => none
  | (k', v') :: rest => if k' = k then some v' else lookupEntries rest k

/-- A Go `map[string]interface{}`. -/
structure GoMap where
  entries : List (String × Value)
  nodup : (entries.map Prod.fst).Nodup

/-- The empty map, `make(map[string]interface{})`. -/
def GoMap.empty : GoMap := ⟨[], List.nodup_nil⟩

/-- The two-result lookup `v, ok := m[k]`; `none` is `ok = false`. -/
def GoMap.get? (m : GoMap) (k : String) : Option Value := lookupEntries m.entries k

/-- The one-result lookup `m[k]`: the zero value `nil` for an absent key. -/
def GoMap.get (m : GoMap) (k : String) : Value := (m.get? k).getD Value.nil

/-- The assignment `m[k] = v`; the keys stay pairwise distinct. -/
def GoMap.set (m : GoMap) (k : String) (v : Value) : GoMap :=
  ⟨setEntries m.entries k v, by
    have hmem : ∀ (es : List (String × Value)) (a : String),
        a ∈ (setEntries es k v).map Prod.fst → a = k ∨ a ∈ es.map Prod.fst := by
      intro es
      induction es with
      | nil =>
        intro a ha
        simpa [setEntries] using ha
      | cons p rest ih =>
        intro a ha
        by_cases h : p.1 = k
        · simp only [setEntries, h, if_true, List.map_cons, List.mem_cons] at ha
          rcases ha with ha | ha
          · exact Or.inl ha
          · exact Or.inr (List.mem_cons_of_mem _ ha)
        · simp only [setEntries, h, if_false, List.map_cons, List.mem_cons] at ha
          rcases ha with ha | ha
          · exact Or.inr (ha ▸ List.mem_cons_self _ _)
          · rcases ih a ha with h1 | h1
            · exact Or.inl h1
            · exact Or.inr (List.mem_cons_of_mem _ h1)
    have hnd : ∀ es : List (String × Value), (es.map Prod.fst).Nodup →
        ((setEntries es k v).map Prod.fst).Nodup := by
      intro es
      induction es with
      | nil =>
        intro _
        simp [setEntries]
      | cons p rest ih =>
        intro hes
        rw [List.map_cons, List.nodup_cons] at hes
        by_cases h : p.1 = k
        · simp only [setEntries, h, if_true, List.map_cons, List.nodup_cons]
          exact ⟨h ▸ hes.1, hes.2⟩
        · simp only [setEntries, h, if_false, List.map_cons, List.nodup_cons]
          refine ⟨fun hin => ?_, ih hes.2⟩
          rcases hmem rest p.1 hin with h1 | h1
          · exact h h1
          · exact hes.1 h1
    exact hnd m.entries m.nodup⟩

/-- The key set of a map, as a list. -/
def GoMap.keys (m : GoMap) : List String := m.entries.map Prod.fst

/-! ## Writers and the table writer -/

/-- An `io.Writer`: what has been written, and whether `Write` succeeds. -/
structure Writer where
  buf : List Nat
  writeOk : Bool
  deriving DecidableEq

/-- A call of `Write` (`none` is a returned error). -/
def Writer.write (w : Writer) (b : List Nat) : Option Writer :=
  if w.writeOk then some { w with buf := w.buf ++ b } else none

/-- A write whose error the caller ignores. -/
def Writer.writeIgnore (w : Writer) (b : List Nat) : Writer :=
  (w.write b).getD w

/-- The row options `table.RowConfig`. -/
structure RowConfig where
  autoMerge : Bool
  deriving DecidableEq

/-- The rows a `table.Writer` has been handed. -/
structure TableWriter where
  headers : List Row
  rows : List Row
  footers : List (Row × RowConfig)
  deriving DecidableEq

/-- The writer `table.NewWriter()` returns. -/
def TableWriter.new : TableWriter := ⟨[], [], []⟩

def TableWriter.AppendHeader (t : TableWriter) (r : Row) : TableWriter :=
  { t with headers := t.headers ++ [r] }

def TableWriter.AppendRows (t : TableWriter) (rs : List Row) : TableWriter :=
  { t with rows := t.rows ++ rs }

def TableWriter.AppendFooter (t : TableWriter) (r : Row) (c : RowConfig) : TableWriter :=
  { t with footers := t.footers ++ [(r, c)] }

/-- The rendering methods of the table writer (library code): each yields the
bytes it sends to the output mirror. -/
structure TableLib where
  Render : TableWriter → List Nat
  RenderMarkdown : TableWriter → List Nat
  RenderHTML : TableWriter → List Nat
  RenderCSV : TableWriter → List Nat

/-- Go's `for i := 0; i < n; i++ { row = append(row, v) }`. -/
def appendTimes (n : Nat) (v : Value) (row : Row) : Row :=
  (List.range n).foldl (fun r _ => r ++ [v]) row

/-- The footer row built in the default branch of both table renderers. -/
def footerRow (colNames : List String) (kvs : List GoMap) : Row :=
  if colNames.length > 1 then
    appendTimes (colNames.length - 1) (Value.int kvs.length) [Value.str "Total"]
  else
    [Value.str ("Total " ++ sprintD kvs.length)]

/-! ## `render/table.go` -/

namespace render

/-- The callback of `array.Map` in `render`: one body row. -/
def bodyRow (colNames : List String) (kv : GoMap) : Row :=
  colNames.foldl (fun row colName =>
    match kv.get? colName with
    | some v => if v ≠ Value.nil then row ++ [v] else row ++ [Value.str ""]
    | none => row ++ [Value.str ""]) []

/-- The cell specified for column `colName` of row `kv`: the value when the key
is present and not nil, the empty string otherwise. -/
def cellOrEmpty (kv : GoMap) (colName : String) : Value :=
  match kv.get? colName with
  | some v => if v = Value.nil then Value.str "" else v
  | none => Value.str ""

/-- The table writer as `render` has filled it when it calls a `Render`
method. -/
def table (noHeader : Bool) (colNames : List String) (kvs : List GoMap) (typ : String) :
    TableWriter :=
  let t := TableWriter.new
  let t := if !noHeader then t.AppendHeader (colNames.map Value.str) else t
  let t := t.AppendRows (kvs.map (bodyRow colNames))
  if typ = "markdown" then t
  else if typ = "html" then t
  else if typ = "csv" then t
  else if kvs.length > 10 then t.AppendFooter (footerRow colNames kvs) ⟨true⟩
  else t

/-- The function `render`: fill the table writer, then render it in the style
`typ` to the output mirror `writer`. It always returns a nil error. -/
def render (lib : TableLib) (writer : Writer) (noHeader : Bool) (colNames : List String)
    (kvs : List GoMap) (typ : String) : Writer :=
  let t := table noHeader colNames kvs typ
  if typ = "markdown" then writer.writeIgnore (lib.RenderMarkdown t)
  else if typ = "html" then writer.writeIgnore (lib.RenderHTML t)
  else if typ = "csv" then writer.writeIgnore (lib.RenderCSV t)
  else writer.writeIgnore (lib.Render t)

/-- The function `CSV`: the byte-order mark, then `render` in the `csv` style. -/
def CSV (lib : TableLib) (writer : Writer) (noHeader : Bool) (colNames : List String)
    (kvs : List GoMap) : Option Writer :=
  match writer.write [0xEF, 0xBB, 0xBF] with
  | none => none
  | some w => some (render lib w noHeader colNames kvs "csv")

def Table (lib : TableLib) (writer : Writer) (noHeader : Bool) (colNames : List String)
    (kvs : List GoMap) : Writer :=
  render lib writer noHeader colNames kvs "table"

def Markdown (lib : TableLib) (writer : Writer) (noHeader : Bool) (colNames : List String)
    (kvs : List GoMap) : Writer :=
  render lib writer noHeader colNames kvs "markdown"

def HTML (lib : TableLib) (writer : Writer) (noHeader : Bool) (colNames : List String)
    (kvs : List GoMap) : Writer :=
  render lib writer noHeader colNames kvs "html"

end render

/-! ## `main.go`: strings and bytes -/

/-- The UTF-8 encoding of one character. -/
def utf8EncodeChar (c : Char) : List Nat :=
  let v := c.toNat
  if v < 0x80 then [v]
  else if v < 0x800 then [0xC0 + v / 64, 0x80 + v % 64]
  else if v < 0x10000 then [0xE0 + v / 4096, 0x80 + v / 64 % 64, 0x80 + v % 64]
  else [0xF0 + v / 262144, 0x80 + v / 4096 % 64, 0x80 + v / 64 % 64, 0x80 + v % 64]

/-- The bytes of a Go string. -/
def utf8 (s : String) : List Nat := s.data.flatMap utf8EncodeChar

/-- Go's `strings.ReplaceAll(s, "\n", "\\n")`: each newline becomes a backslash
followed by the letter n. -/
def replaceNewlines (s : String) : String :=
  ⟨s.data.flatMap (fun c => if c = '\n' then ['\\', 'n'] else [c])⟩

/-- Go's `strings.Join(elems, sep)`. -/
def stringsJoin (elems : List String) (sep : String) : String :=
  match elems with
  | [] => ""
  | [a] => a
  | a :: b :: rest => a ++ sep ++ stringsJoin (b :: rest) sep

/-- Go's `fmt.Sprintln(s)` for one string operand. -/
def sprintln (s : String) : String := s ++ "\n"

/-! ## `main.go`: building the result model -/

/-- A way for the program to stop: a run-time panic on an index, or a panic
with a returned error. -/
inductive Failure where
  | indexOutOfRange (index length : Nat)
  | error (msg : String)
  deriving DecidableEq

/-- A column of the extractor's result. -/
structure Column where
  Name : String
  deriving DecidableEq

/-- The extractor's result: the columns and the positional rows. -/
structure Results where
  Columns : List Column
  DataSets : List (List Value)

/-- The inner loop `for i, col := range row { rowData[results.Columns[i].Name] = col }`,
from index `i` on. -/
def buildRowFrom (columns : List Column) (i : Nat) (row : List Value) (rowData : GoMap) :
    Except Failure GoMap :=
  match row with
  | [] => Except.ok rowData
  | col :: rest =>
    match columns[i]? with
    | none => Except.error (Failure.indexOutOfRange i columns.length)
    | some c => buildRowFrom columns (i + 1) rest (rowData.set c.Name col)

/-- The outer loop over `results.DataSets`, appending one map per row to `kvs`. -/
def buildKvsFrom (columns : List Column) (dataSets : List (List Value)) (kvs : List GoMap) :
    Except Failure (List GoMap) :=
  match dataSets with
  | [] => Except.ok kvs
  | row :: rest =>
    match buildRowFrom columns 0 row GoMap.empty with
    | Except.error e => Except.error e
    | Except.ok rowData => buildKvsFrom columns rest (kvs ++ [rowData])

/-- The row list `kvs` of `main`. -/
def buildKvs (results : Results) : Except Failure (List GoMap) :=
  buildKvsFrom results.Columns results.DataSets []

/-- The column list `colNames` of `main`. -/
def buildColNames (results : Results) : List String :=
  results.Columns.foldl (fun colNames col => colNames ++ [col.Name]) []

/-! ## `main.go`: the renderers -/

/-- The callback of `array.Map` in `renderTable`: one body row. -/
def renderTableRow (colNames : List String) (kv : GoMap) : Row :=
  colNames.foldl (fun row colName => row ++ [kv.get colName]) []

/-- The table writer as `renderTable` has filled it when it calls a `Render`
method. -/
def renderTableWriter (colNames : List String) (kvs : List GoMap) (typ : String) :
    TableWriter :=
  let t := TableWriter.new
  let t := t.AppendHeader (colNames.map Value.str)
  let t := t.AppendRows (kvs.map (renderTableRow colNames))
  if typ = "markdown" then t
  else if typ = "html" then t
  else if typ = "csv" then t
  else t.AppendFooter (footerRow colNames kvs) ⟨true⟩

/-- The function `renderTable` of `main.go`. -/
def renderTable (lib : TableLib) (writer : Writer) (colNames : List String)
    (kvs : List GoMap) (typ : String) : Writer :=
  let t := renderTableWriter colNames kvs typ
  if typ = "markdown" then writer.writeIgnore (lib.RenderMarkdown t)
  else if typ = "html" then writer.writeIgnore (lib.RenderHTML t)
  else if typ = "csv" then writer.writeIgnore (lib.RenderCSV t)
  else writer.writeIgnore (lib.Render t)

/-- One line of the plain renderer, before `Sprintln`: the inner loop over
`colNames` and the `strings.Join`. -/
def plainLine (colNames : List String) (kv : GoMap) : String :=
  stringsJoin
    (colNames.foldl (fun lines colName =>
      lines ++ [replaceNewlines (colName ++ "=" ++ sprintV (kv.get colName))]) [])
    ", "

/-- The default branch of the format switch: one `WriteString` per row into the
byte buffer. -/
def renderPlain (buf : List Nat) (colNames : List String) (kvs : List GoMap) : List Nat :=
  kvs.foldl (fun b kv => b ++ utf8 (sprintln (plainLine colNames kv))) buf

/-- The column letters of the spreadsheet branch. -/
def exfCols : List String :=
  ["A", "B", "C", "D", "E", "F", "G", "H", "I", "J", "K", "L", "M", "N", "O", "P", "Q",
   "R", "S", "T", "U", "V", "W", "X", "Y", "Z"]

/-- One call `exf.SetCellValue(sheet, axis, value)`. -/
structure CellWrite where
  sheet : String
  axis : String
  value : Value
  deriving DecidableEq

/-- The loop `for j, colName := range colNames` of the spreadsheet branch, from
index `j` on, writing into sheet row `line`; `value` gives the cell value of a
column. -/
def xlsxRowFrom (line : Nat) (value : String → Value) (j : Nat) (colNames : List String)
    (cells : List CellWrite) : Except Failure (List CellWrite) :=
  match colNames with
  | [] => Except.ok cells
  | colName :: rest =>
    match exfCols[j]? with
    | none => Except.error (Failure.indexOutOfRange j exfCols.length)
    | some letter =>
      xlsxRowFrom line value (j + 1) rest
        (cells ++ [⟨"Sheet1", letter ++ sprintD line, value colName⟩])

/-- The loop `for i, kv := range kvs` of the spreadsheet branch, from index `i`
on. -/
def xlsxRowsFrom (colNames : List String) (i : Nat) (kvs : List GoMap)
    (cells : List CellWrite) : Except Failure (List CellWrite) :=
  match kvs with
  | [] => Except.ok cells
  | kv :: rest =>
    match xlsxRowFrom (i + 2) kv.get 0 colNames cells with
    | Except.error e => Except.error e
    | Except.ok cells' => xlsxRowsFrom colNames (i + 1) rest cells'

/-- The cell writes of the spreadsheet branch, in program order: the header
line, then the data lines. -/
def xlsxCells (colNames : List String) (kvs : List GoMap) : Except Failure (List CellWrite) :=
  match xlsxRowFrom 1 Value.str 0 colNames [] with
  | Except.error e => Except.error e
  | Except.ok cells => xlsxRowsFrom colNames 0 kvs cells

/-- An XML `field` element. -/
structure XMLField where
  Name : String
  Value : Value
  deriving DecidableEq

/-- An XML `row` element. -/
structure XMLRow where
  Value : List XMLField
  deriving DecidableEq

/-- The XML `resultset` document. -/
structure XMLResultSet where
  Statement : String
  XMLNS : String
  Value : List XMLRow
  deriving DecidableEq

/-- The order in which `range` visits the entries of a map: Go leaves it
unspecified, and it may differ from one `range` statement to the next. The
first argument counts the `range` statements executed so far. -/
abbrev MapOrder := Nat → GoMap → List (String × Value)

/-- A `range` over a map visits every entry exactly once. -/
def MapOrder.Valid (order : MapOrder) : Prop :=
  ∀ (i : Nat) (m : GoMap), (order i m).Perm m.entries

/-- The callback of `array.Map` in `printXML`: the loop `for k, v := range item`
over the entries in the order visited. -/
def xmlRow (visited : List (String × Value)) : XMLRow :=
  visited.foldl (fun row kv => { row with Value := row.Value ++ [⟨kv.1, kv.2⟩] }) ⟨[]⟩

/-- The `array.Map` of `printXML`: the callback on each item, from item `i` on. -/
def xmlRowsFrom (order : MapOrder) (i : Nat) (data : List GoMap) : List XMLRow :=
  match data with
  | [] => []
  | item :: rest => xmlRow (order i item) :: xmlRowsFrom order (i + 1) rest

/-- The document `printXML` hands to the XML encoder. -/
def xmlResultSet (order : MapOrder) (data : List GoMap) (sqlStr : String) : XMLResultSet :=
  { Statement := sqlStr
    XMLNS := "http://www.w3.org/2001/XMLSchema-instance"
    Value := xmlRowsFrom order 0 data }

/-- The constant `xml.Header`. -/
def xmlHeader : String := "<?xml version=\"1.0\" encoding=\"UTF-8\"?>\n"

/-- The library code `main.go` calls. -/
structure Lib where
  table : TableLib
  jsonMarshal : List GoMap → Except String (List Nat)
  yamlMarshal : List GoMap → Except String (List Nat)
  xmlMarshalIndent : XMLResultSet → Except String (List Nat)
  xlsxWrite : List CellWrite → List Nat

/-- A call of `fmt.Fprint(w, s)`. -/
def fprint (w : Writer) (b : List Nat) : Except String Writer :=
  match w.write b with
  | none => Except.error "write failed"
  | some w' => Except.ok w'

/-- The function `printJSON`. -/
def printJSON (lib : Lib) (w : Writer) (data : List GoMap) : Except String Writer :=
  match lib.jsonMarshal data with
  | Except.error e => Except.error e
  | Except.ok marshalData => fprint w marshalData

/-- The function `printYAML`. -/
def printYAML (lib : Lib) (w : Writer) (data : List GoMap) : Except String Writer :=
  match lib.yamlMarshal data with
  | Except.error e => Except.error e
  | Except.ok marshalData => fprint w marshalData

/-- The function `printXML`. -/
def printXML (lib : Lib) (order : MapOrder) (w : Writer) (data : List GoMap)
    (sqlStr : String) : Except String Writer :=
  match lib.xmlMarshalIndent (xmlResultSet order data sqlStr) with
  | Except.error e => Except.error e
  | Except.ok marshalData => fprint w (utf8 xmlHeader ++ marshalData)

/-- A returned error that `main` turns into a panic. -/
def orPanic (r : Except String Writer) : Except Failure (List Nat) :=
  match r with
  | Except.error e => Except.error (Failure.error e)
  | Except.ok w => Except.ok w.buf

/-- The format switch of `main`, on a fresh byte buffer: the bytes in the buffer
after the switch, or the panic that ends the program. -/
def renderFormat (lib : Lib) (order : MapOrder) (format : String) (colNames : List String)
    (kvs : List GoMap) (sqlStr : String) : Except Failure (List Nat) :=
  let writer : Writer := ⟨[], true⟩
  if format = "json" then orPanic (printJSON lib writer kvs)
  else if format = "yaml" then orPanic (printYAML lib writer kvs)
  else if format = "table" then Except.ok (renderTable lib.table writer colNames kvs "table").buf
  else if format = "markdown" then
    Except.ok (renderTable lib.table writer colNames kvs "markdown").buf
  else if format = "csv" then Except.ok (renderTable lib.table writer colNames kvs "csv").buf
  else if format = "html" then Except.ok (renderTable lib.table writer colNames kvs "html").buf
  else if format = "xlsx" then
    match xlsxCells colNames kvs with
    | Except.error e => Except.error e
    | Except.ok cells => Except.ok (writer.writeIgnore (lib.xlsxWrite cells)).buf
  else if format = "xml" then orPanic (printXML lib order writer kvs sqlStr)
  else Except.ok (renderPlain writer.buf colNames kvs)

/-! ## Sample inputs -/

/-- A map literal with the single entry `k: v`. -/
def GoMap.single (k : String) (v : Value) : GoMap := GoMap.empty.set k v

/-- Eleven rows `{"a": 0}`. -/
def elevenRows : List GoMap := List.replicate 11 (GoMap.single "a" (Value.int 0))

/-- Ten rows `{"a": 0}`. -/
def tenRows : List GoMap := List.replicate 10 (GoMap.single "a" (Value.int 0))

/-- The two rows `{a: 1, b: "x"}` and `{a: "p\nq"}`; the second has a newline in
its value. -/
def plainRows : List GoMap :=
  [(GoMap.empty.set "a" (Value.int 1)).set "b" (Value.str "x"),
    GoMap.empty.set "a" (Value.str "p\nq")]

/-- A table library for the samples: each renderer sends one tag byte, then the
numbers of header, body and footer rows. -/
def sampleTableLib : TableLib where
  Render t := [0, t.headers.length, t.rows.length, t.footers.length]
  RenderMarkdown t := [1, t.headers.length, t.rows.length, t.footers.length]
  RenderHTML t := [2, t.headers.length, t.rows.length, t.footers.length]
  RenderCSV t := [3, t.headers.length, t.rows.length, t.footers.length]

/-- Two columns `a`, `b` and the rows `[1, nil]`, `[2, "x"]`. -/
def sampleResults : Results where
  Columns := [⟨"a"⟩, ⟨"b"⟩]
  DataSets := [[Value.int 1, Value.nil], [Value.int 2, Value.str "x"]]

/-- The structured encoders and the spreadsheet encoder for the samples: each
sends one tag byte and the number of rows, documents or cell writes. -/
def sampleLib : Lib where
  table := sampleTableLib
  jsonMarshal data := Except.ok [4, data.length]
  yamlMarshal data := Except.ok [5, data.length]
  xmlMarshalIndent doc := Except.ok [6, doc.Value.length]
  xlsxWrite cells := [7, cells.length]

/-- A `range` that visits the entries of a map from the last assigned key to the
first. -/
def reverseOrder : MapOrder := fun _ m => m.entries.reverse

/-- Twenty-seven column names `c0`, ..., `c26`. -/
def columns27 : List String := (List.range 27).map (fun i => "c" ++ sprintD i)

/-! ## Predicates used in the statements -/

/-- The map `m` holds exactly the columns, with the values of `row` by position. -/
def RowOf (colNames : List String) (m : GoMap) (row : List Value) : Prop :=
  (∀ k, k ∈ m.keys ↔ k ∈ colNames) ∧
  ∀ (j : Nat) (name : String), colNames[j]? = some name → m.get? name = row[j]?

/-- The format identifiers of the interface. -/
def knownFormats : List String :=
  ["table", "markdown", "html", "csv", "json", "yaml", "xml", "xlsx", "plain"]

/-! ## Loops as list functions -/

theorem foldl_append_singleton {α β : Type} (f : α → β) (l : List α) (acc : List β) :
    l.foldl (fun r a => r ++ [f a]) acc = acc ++ l.map f := by
  induction l generalizing acc with
  | nil => simp
  | cons a rest ih => simp [ih]

theorem appendTimes_eq (n : Nat) (v : Value) (row : Row) :
    appendTimes n v row = row ++ List.replicate n v := by
  unfold appendTimes
  rw [foldl_append_singleton (fun _ => v) (List.range n) row]
  congr 1
  apply List.ext_getElem <;> simp

theorem footerRow_many (colNames : List String) (kvs : List GoMap)
    (h : 1 < colNames.length) :
    footerRow colNames kvs =
      Value.str "Total" :: List.replicate (colNames.length - 1) (Value.int kvs.length) := by
  unfold footerRow
  rw [if_pos h, appendTimes_eq]
  rfl

theorem footerRow_few (colNames : List String) (kvs : List GoMap)
    (h : colNames.length ≤ 1) :
    footerRow colNames kvs = [Value.str ("Total " ++ sprintD kvs.length)] := by
  unfold footerRow
  rw [if_neg (by omega)]

theorem render_bodyRow_eq (colNames : List String) (kv : GoMap) :
    render.bodyRow colNames kv = colNames.map (render.cellOrEmpty kv) := by
  unfold render.bodyRow
  have hf : (fun (row : Row) (colName : String) =>
      match kv.get? colName with
      | some v => if v ≠ Value.nil then row ++ [v] else row ++ [Value.str ""]
      | none => row ++ [Value.str ""]) =
      (fun row colName => row ++ [render.cellOrEmpty kv colName]) := by
    funext row colName
    unfold render.cellOrEmpty
    cases kv.get? colName with
    | none => rfl
    | some v => by_cases hv : v = Value.nil <;> simp [hv]
  rw [hf, foldl_append_singleton (render.cellOrEmpty kv) colNames []]
  simp

theorem cellOrEmpty_ne_nil (kv : GoMap) (colName : String) :
    render.cellOrEmpty kv colName ≠ Value.nil := by
  unfold render.cellOrEmpty
  cases kv.get? colName with
  | none => simp
  | some v => by_cases hv : v = Value.nil <;> simp [hv]

theorem render_table_rows (noHeader : Bool) (colNames : List String) (kvs : List GoMap)
    (typ : String) :
    (render.table noHeader colNames kvs typ).rows = kvs.map (render.bodyRow colNames) := by
  unfold render.table
  cases noHeader <;>
    simp only [TableWriter.new, TableWriter.AppendHeader, TableWriter.AppendRows,
      TableWriter.AppendFooter] <;>
    split_ifs <;> simp

theorem render_table_footers (noHeader : Bool) (colNames : List String) (kvs : List GoMap)
    (typ : String) :
    (render.table noHeader colNames kvs typ).footers =
      if typ = "markdown" ∨ typ = "html" ∨ typ = "csv" then []
      else if 10 < kvs.length then [(footerRow colNames kvs, ⟨true⟩)] else [] := by
  unfold render.table
  cases noHeader <;>
    simp only [TableWriter.new, TableWriter.AppendHeader, TableWriter.AppendRows,
      TableWriter.AppendFooter] <;>
    split_ifs <;> simp_all

/-! ## The footer of `render` -/

/-- C1: in `render` with the table style (`typ` none of markdown, html, csv) and
more than ten rows, exactly one footer row is appended, with the auto-merge
option: for more than one column it has `len(colNames)` cells, `"Total"`
followed by the row count in every other cell; for exactly one column it is the
single cell `"Total n"` with `n` the row count in decimal. -/
theorem render_footer_over_ten (noHeader : Bool) (colNames : List String)
    (kvs : List GoMap) (typ : String)
    (hmd : typ ≠ "markdown") (hhtml : typ ≠ "html") (hcsv : typ ≠ "csv")
    (hn : 10 < kvs.length) :
    (1 < colNames.length →
      ∃ footer : Row,
        (render.table noHeader colNames kvs typ).footers = [(footer, ⟨true⟩)] ∧
        footer.length = colNames.length ∧
        footer = Value.str "Total" ::
          List.replicate (colNames.length - 1) (Value.int kvs.length)) ∧
    (colNames.length = 1 →
      (render.table noHeader colNames kvs typ).footers =
        [([Value.str ("Total " ++ sprintD kvs.length)], ⟨true⟩)]) := by
  have hf := render_table_footers noHeader colNames kvs typ
  rw [if_neg (by simp [hmd, hhtml, hcsv]), if_pos hn] at hf
  constructor
  · intro hc
    refine ⟨footerRow colNames kvs, hf, ?_, footerRow_many colNames kvs hc⟩
    rw [footerRow_many colNames kvs hc]
    simp
    omega
  · intro hc
    rw [hf, footerRow_few colNames kvs (by omega)]

/-- C1, at 11 rows: 3 columns give the footer `["Total", 11, 11]`, 1 column gives
`["Total 11"]`. -/
theorem render_footer_over_ten_witness :
    (render.table false ["a", "b", "c"] elevenRows "table").footers =
        [([Value.str "Total", Value.int 11, Value.int 11], ⟨true⟩)] ∧
    (render.table false ["a"] elevenRows "table").footers =
        [([Value.str "Total 11"], ⟨true⟩)] := by
  constructor
  · obtain ⟨footer, h1, _, h3⟩ :=
      (render_footer_over_ten false ["a", "b", "c"] elevenRows "table"
        (by decide) (by decide) (by decide) (by decide)).1 (by decide)
    rw [h1, h3]
    rfl
  · exact (render_footer_over_ten false ["a"] elevenRows "table"
        (by decide) (by decide) (by decide) (by decide)).2 (by decide)

/-- C2: `render` appends a footer row if and only if the style is table (`typ` is
none of markdown, html, csv) and there are strictly more than ten rows; it never
appends more than one. -/
theorem render_footer_iff (noHeader : Bool) (colNames : List String) (kvs : List GoMap)
    (typ : String) :
    ((render.table noHeader colNames kvs typ).footers ≠ [] ↔
      (typ ≠ "markdown" ∧ typ ≠ "html" ∧ typ ≠ "csv") ∧ 10 < kvs.length) ∧
    (render.table noHeader colNames kvs typ).footers.length ≤ 1 := by
  rw [render_table_footers]
  split_ifs with h1 h2
  · simp
    intro a b c
    simp_all
  · simp
    simp only [not_or] at h1
    exact ⟨h1, h2⟩
  · simp
    intro _ _ _
    omega

/-- C3: the body rows `render` hands to the table writer are, in the order of
`kvs`, one row per element of `kvs`; each has `len(colNames)` cells, cell `j`
being the row's value for `colNames[j]` when that key is present with a non-nil
value and the empty string otherwise (absent and nil alike); no cell is nil. -/
theorem render_body_rows (noHeader : Bool) (colNames : List String) (kvs : List GoMap)
    (typ : String) :
    (render.table noHeader colNames kvs typ).rows =
        kvs.map (fun kv => colNames.map (render.cellOrEmpty kv)) ∧
    (∀ (kv : GoMap) (c : String) (v : Value),
        kv.get? c = some v → v ≠ Value.nil → render.cellOrEmpty kv c = v) ∧
    (∀ (kv : GoMap) (c : String),
        kv.get? c = none ∨ kv.get? c = some Value.nil →
          render.cellOrEmpty kv c = Value.str "") ∧
    (∀ row ∈ (render.table noHeader colNames kvs typ).rows,
        row.length = colNames.length ∧ Value.nil ∉ row) := by
  have hrows : (render.table noHeader colNames kvs typ).rows =
      kvs.map (fun kv => colNames.map (render.cellOrEmpty kv)) := by
    rw [render_table_rows]
    exact List.map_congr_left (fun kv _ => render_bodyRow_eq colNames kv)
  refine ⟨hrows, ?_, ?_, ?_⟩
  · intro kv c v h hv
    simp [render.cellOrEmpty, h, hv]
  · intro kv c h
    rcases h with h | h <;> simp [render.cellOrEmpty, h]
  · intro row hrow
    rw [hrows] at hrow
    obtain ⟨kv, _, rfl⟩ := List.mem_map.mp hrow
    refine ⟨by simp, ?_⟩
    intro hmem
    obtain ⟨c, _, hc⟩ := List.mem_map.mp hmem
    exact cellOrEmpty_ne_nil kv c hc

/-! ## The byte-order mark of `CSV` -/

/-- C4: on a writer whose writes succeed, `CSV` succeeds and what it adds to the
writer is the three bytes EF BB BF followed by the CSV rendering of the table,
for every column list, row list and value of `noHeader`. -/
theorem CSV_starts_with_bom (lib : TableLib) (writer : Writer) (noHeader : Bool)
    (colNames : List String) (kvs : List GoMap) (hok : writer.writeOk = true) :
    ∃ w : Writer, render.CSV lib writer noHeader colNames kvs = some w ∧
      w.buf = writer.buf ++ ([0xEF, 0xBB, 0xBF] ++
        lib.RenderCSV (render.table noHeader colNames kvs "csv")) := by
  refine ⟨render.render lib ⟨writer.buf ++ [0xEF, 0xBB, 0xBF], writer.writeOk⟩ noHeader
    colNames kvs "csv", ?_, ?_⟩
  · simp [render.CSV, Writer.write, hok]
  · simp [render.render, Writer.writeIgnore, Writer.write, hok]

/-- C4, on an empty buffer with one column and ten rows: the output is EF BB BF
followed by the sample library's CSV bytes. -/
theorem CSV_starts_with_bom_witness :
    ∃ w : Writer, render.CSV sampleTableLib ⟨[], true⟩ false ["a"] tenRows = some w ∧
      w.buf = [0xEF, 0xBB, 0xBF, 3, 1, 10, 0] := by
  obtain ⟨w, h1, h2⟩ := CSV_starts_with_bom sampleTableLib ⟨[], true⟩ false ["a"] tenRows rfl
  refine ⟨w, h1, ?_⟩
  rw [h2]
  decide

/-! ## The two table renderers -/

theorem renderTableRow_eq (colNames : List String) (kv : GoMap) :
    renderTableRow colNames kv = colNames.map kv.get := by
  unfold renderTableRow
  rw [foldl_append_singleton kv.get colNames []]
  simp

/-- C10: on rows that have a non-nil value for every column, and with either a
markdown, html or csv style or more than ten rows, `renderTable` of `main.go`
and `render` with `noHeader = false` hand the table writer the same header,
body rows and footer, and send the same bytes to the writer. -/
theorem renderTable_agrees_with_render (colNames : List String) (kvs : List GoMap)
    (typ : String)
    (hfull : ∀ kv ∈ kvs, ∀ c ∈ colNames, ∃ v, kv.get? c = some v ∧ v ≠ Value.nil)
    (hdom : (typ = "markdown" ∨ typ = "html" ∨ typ = "csv") ∨ 10 < kvs.length) :
    renderTableWriter colNames kvs typ = render.table false colNames kvs typ ∧
    ∀ (lib : TableLib) (writer : Writer),
      renderTable lib writer colNames kvs typ =
        render.render lib writer false colNames kvs typ := by
  have hrows : kvs.map (renderTableRow colNames) = kvs.map (render.bodyRow colNames) := by
    apply List.map_congr_left
    intro kv hkv
    rw [renderTableRow_eq, render_bodyRow_eq]
    apply List.map_congr_left
    intro c hc
    obtain ⟨v, hv, hne⟩ := hfull kv hkv c hc
    simp [GoMap.get, render.cellOrEmpty, hv, hne]
  have htab : renderTableWriter colNames kvs typ = render.table false colNames kvs typ := by
    unfold renderTableWriter render.table
    simp only [hrows]
    rcases hdom with h | h
    · rcases h with h | h | h <;> simp [h]
    · simp [h]
  refine ⟨htab, ?_⟩
  intro lib writer
  unfold renderTable render.render
  simp only [htab]

/-- C10, at one column and eleven rows `{"a": 0}` in the table style. -/
theorem renderTable_agrees_with_render_witness :
    renderTableWriter ["a"] elevenRows "table" = render.table false ["a"] elevenRows "table" :=
  (renderTable_agrees_with_render ["a"] elevenRows "table"
    (by
      intro kv hkv c hc
      obtain rfl : kv = GoMap.single "a" (Value.int 0) := List.eq_of_mem_replicate hkv
      obtain rfl : c = "a" := by simpa using hc
      exact ⟨Value.int 0, by decide, by decide⟩)
    (Or.inr (by decide))).1

/-! ## The plain renderer -/

theorem utf8_append (a b : String) : utf8 (a ++ b) = utf8 a ++ utf8 b := by
  simp [utf8, String.data_append, List.flatMap_append]

theorem count_newline_utf8EncodeChar (c : Char) :
    (utf8EncodeChar c).count 10 = if c = '\n' then 1 else 0 := by
  have hc : c = '\n' ↔ c.toNat = 10 := by
    constructor
    · rintro rfl
      rfl
    · intro h
      apply Char.ext
      apply UInt32.ext
      exact h
  unfold utf8EncodeChar
  by_cases h : c = '\n'
  · subst h
    decide
  · have hne : c.toNat ≠ 10 := fun e => h (hc.mpr e)
    simp only [h, if_false]
    split_ifs <;> simp [List.count_cons] <;> omega

theorem count_newline_utf8 (s : String) : (utf8 s).count 10 = s.data.count '\n' := by
  unfold utf8
  induction s.data with
  | nil => rfl
  | cons c rest ih =>
    rw [List.flatMap_cons, List.count_append, ih, count_newline_utf8EncodeChar,
      List.count_cons]
    by_cases h : c = '\n'
    · subst h
      simp
      omega
    · have h' : (c == '\n') = false := by simpa using h
      simp [h, h']

theorem replaceNewlines_no_newline (s : String) : '\n' ∉ (replaceNewlines s).data := by
  unfold replaceNewlines
  simp only [List.mem_flatMap, not_exists, not_and]
  intro c _ hmem
  by_cases h : c = '\n'
  · rw [if_pos h] at hmem
    revert hmem
    decide
  · rw [if_neg h] at hmem
    simp only [List.mem_singleton] at hmem
    exact h hmem.symm

theorem stringsJoin_no_newline (elems : List String)
    (h : ∀ e ∈ elems, '\n' ∉ e.data) : '\n' ∉ (stringsJoin elems ", ").data := by
  induction elems with
  | nil => simp [stringsJoin]
  | cons a rest ih =>
    cases rest with
    | nil => simpa [stringsJoin] using h a (by simp)
    | cons b rest' =>
      rw [stringsJoin, String.data_append, String.data_append]
      simp only [List.mem_append, not_or]
      refine ⟨⟨h a (by simp), by decide⟩, ih ?_⟩
      intro e he
      exact h e (List.mem_cons_of_mem a he)

theorem plainLine_eq (colNames : List String) (kv : GoMap) :
    plainLine colNames kv =
      stringsJoin
        (colNames.map (fun c => replaceNewlines (c ++ "=" ++ sprintV (kv.get c)))) ", " := by
  unfold plainLine
  rw [foldl_append_singleton
    (fun c => replaceNewlines (c ++ "=" ++ sprintV (kv.get c))) colNames []]
  simp

theorem plainLine_no_newline (colNames : List String) (kv : GoMap) :
    '\n' ∉ (plainLine colNames kv).data := by
  rw [plainLine_eq]
  apply stringsJoin_no_newline
  intro e he
  obtain ⟨c, _, rfl⟩ := List.mem_map.mp he
  exact replaceNewlines_no_newline _

theorem renderPlain_eq (buf : List Nat) (colNames : List String) (kvs : List GoMap) :
    renderPlain buf colNames kvs =
      buf ++ (kvs.map (fun kv => utf8 (plainLine colNames kv ++ "\n"))).flatten := by
  unfold renderPlain
  induction kvs generalizing buf with
  | nil => simp
  | cons kv rest ih =>
    rw [List.foldl_cons, ih]
    simp [sprintln]

theorem stringsJoin_data (elems : List String) (sep : String) :
    (stringsJoin elems sep).data = List.intercalate sep.data (elems.map String.data) := by
  induction elems with
  | nil => rfl
  | cons a rest ih =>
    cases rest with
    | nil => simp [stringsJoin, List.intercalate]
    | cons b rest' =>
      rw [stringsJoin, String.data_append, String.data_append, ih]
      simp [List.intercalate, List.intersperse_cons_cons]

theorem plainLine_data (colNames : List String) (kv : GoMap) :
    (plainLine colNames kv).data =
      List.intercalate [',', ' ']
        (colNames.map (fun c =>
          (c ++ "=" ++ sprintV (kv.get c)).data.flatMap
            (fun ch => if ch = '\n' then ['\\', 'n'] else [ch]))) := by
  rw [plainLine_eq, stringsJoin_data, List.map_map]
  rfl

/-- C5: the plain renderer adds to the buffer one line per row, in row order.
The characters of a line are the pairs `colName=value` in column order with the
two characters `", "` between consecutive pairs, every newline of a pair
replaced by a backslash and the letter n; the line is followed by one newline.
No line contains a newline before its end, so the output has exactly
`len(kvs)` newline bytes. -/
theorem renderPlain_one_line_per_row (buf : List Nat) (colNames : List String)
    (kvs : List GoMap) :
    ∃ out : List Nat,
      renderPlain buf colNames kvs = buf ++ out ∧
      out = (kvs.map (fun kv =>
        utf8 (String.mk (List.intercalate [',', ' ']
          (colNames.map (fun c =>
            (c ++ "=" ++ sprintV (kv.get c)).data.flatMap
              (fun ch => if ch = '\n' then ['\\', 'n'] else [ch]))))) ++ [10])).flatten ∧
      out.count 10 = kvs.length ∧
      ∀ kv : GoMap,
        (plainLine colNames kv).data =
          List.intercalate [',', ' ']
            (colNames.map (fun c =>
              (c ++ "=" ++ sprintV (kv.get c)).data.flatMap
                (fun ch => if ch = '\n' then ['\\', 'n'] else [ch]))) ∧
        '\n' ∉ (plainLine colNames kv).data ∧
        (utf8 (plainLine colNames kv)).count 10 = 0 := by
  have hline : ∀ kv : GoMap, (utf8 (plainLine colNames kv)).count 10 = 0 := by
    intro kv
    rw [count_newline_utf8]
    exact List.count_eq_zero.mpr (plainLine_no_newline colNames kv)
  have hmk : ∀ kv : GoMap,
      String.mk (List.intercalate [',', ' ']
        (colNames.map (fun c =>
          (c ++ "=" ++ sprintV (kv.get c)).data.flatMap
            (fun ch => if ch = '\n' then ['\\', 'n'] else [ch])))) = plainLine colNames kv := by
    intro kv
    rw [← plainLine_data]
  have hout : (kvs.map (fun kv => utf8 (plainLine colNames kv ++ "\n"))).flatten =
      (kvs.map (fun kv => utf8 (plainLine colNames kv) ++ [10])).flatten := by
    congr 1
    apply List.map_congr_left
    intro kv _
    rw [utf8_append]
    rfl
  simp only [hmk]
  refine ⟨_, (renderPlain_eq buf colNames kvs).trans (by rw [hout]), rfl, ?_, ?_⟩
  · clear hout
    induction kvs with
    | nil => rfl
    | cons kv rest ih =>
      rw [List.map_cons, List.flatten_cons, List.count_append, List.count_append, hline kv,
        ih]
      simp
      omega
  · intro kv
    exact ⟨plainLine_data colNames kv, plainLine_no_newline colNames kv, hline kv⟩

/-- C5, on the columns `a`, `b`, `c` and the rows `{a: 1, b: "x"}` and
`{a: "p\nq"}`: the output is the bytes of the two lines `a=1, b=x, c=<nil>` and
`a=p\nq, b=<nil>, c=<nil>` (a backslash and the letter n in the second), each
ended by a newline, the only two newline bytes. For the value `"a\nb"` in column
`c` the line is `c=a\nb`. -/
theorem renderPlain_newline_witness :
    renderPlain [] ["a", "b", "c"] plainRows =
      [97, 61, 49, 44, 32, 98, 61, 120, 44, 32, 99, 61, 60, 110, 105, 108, 62, 10] ++
      [97, 61, 112, 92, 110, 113, 44, 32, 98, 61, 60, 110, 105, 108, 62, 44, 32, 99, 61, 60, 110, 105, 108, 62, 10] ∧
    (renderPlain [] ["a", "b", "c"] plainRows).count 10 = 2 ∧
    (plainLine ["a", "b", "c"] (GoMap.empty.set "a" (Value.str "p\nq"))).data =
      ['a', '=', 'p', '\\', 'n', 'q', ',', ' ', 'b', '=', '<', 'n', 'i', 'l', '>', ',', ' ',
        'c', '=', '<', 'n', 'i', 'l', '>'] ∧
    plainLine ["c"] (GoMap.single "c" (Value.str "a\nb")) = "c=a\\nb" := by
  obtain ⟨out, h1, _, h3, _⟩ := renderPlain_one_line_per_row [] ["a", "b", "c"] plainRows
  refine ⟨by decide, ?_, by decide, by decide⟩
  rw [h1]
  simpa [plainRows] using h3

/-! ## Map lookups after assignments -/

theorem keys_setEntries (es : List (String × Value)) (k : String) (v : Value) :
    (setEntries es k v).map Prod.fst =
      if k ∈ es.map Prod.fst then es.map Prod.fst else es.map Prod.fst ++ [k] := by
  induction es with
  | nil => simp [setEntries]
  | cons p rest ih =>
    obtain ⟨k', v'⟩ := p
    by_cases h : k' = k
    · simp [setEntries, h]
    · have h' : ¬ k = k' := fun e => h e.symm
      simp only [setEntries, h, if_false, List.map_cons, ih, List.mem_cons, h', false_or]
      split <;> simp

theorem lookup_setEntries_self (es : List (String × Value)) (k : String) (v : Value) :
    lookupEntries (setEntries es k v) k = some v := by
  induction es with
  | nil => simp [setEntries, lookupEntries]
  | cons p rest ih =>
    obtain ⟨k', v'⟩ := p
    by_cases h : k' = k <;> simp [setEntries, lookupEntries, h, ih]

theorem lookup_setEntries_other (es : List (String × Value)) (k k' : String) (v : Value)
    (hne : k' ≠ k) : lookupEntries (setEntries es k v) k' = lookupEntries es k' := by
  induction es with
  | nil => simp [setEntries, lookupEntries, hne.symm]
  | cons p rest ih =>
    obtain ⟨k₀, v₀⟩ := p
    by_cases h : k₀ = k
    · subst h
      simp [setEntries, lookupEntries, hne.symm]
    · by_cases h2 : k₀ = k'
      · subst h2
        simp [setEntries, lookupEntries, h]
      · simp [setEntries, lookupEntries, h, h2, ih]

theorem GoMap.get?_set_self (m : GoMap) (k : String) (v : Value) :
    (m.set k v).get? k = some v :=
  lookup_setEntries_self m.entries k v

theorem GoMap.get?_set_other (m : GoMap) (k k' : String) (v : Value) (hne : k' ≠ k) :
    (m.set k v).get? k' = m.get? k' :=
  lookup_setEntries_other m.entries k k' v hne

theorem GoMap.mem_keys_set (m : GoMap) (k k' : String) (v : Value) :
    k' ∈ (m.set k v).keys ↔ k' = k ∨ k' ∈ m.keys := by
  unfold GoMap.keys GoMap.set
  simp only [keys_setEntries]
  split
  · rename_i h
    constructor
    · exact Or.inr
    · rintro (rfl | h') <;> assumption
  · simp [or_comm]

/-! ## Building the result model -/

theorem buildRowFrom_spec (columns : List Column) (hnd : (columns.map Column.Name).Nodup) :
    ∀ (row : List Value) (i : Nat) (m : GoMap), i + row.length ≤ columns.length →
      ∃ m', buildRowFrom columns i row m = Except.ok m' ∧
        (∀ k, k ∈ m'.keys ↔
          k ∈ m.keys ∨ ∃ j, j < row.length ∧ (columns.map Column.Name)[i + j]? = some k) ∧
        (∀ j name, j < row.length → (columns.map Column.Name)[i + j]? = some name →
          m'.get? name = row[j]?) ∧
        (∀ k, (∀ j, j < row.length → (columns.map Column.Name)[i + j]? ≠ some k) →
          m'.get? k = m.get? k) := by
  intro row
  induction row with
  | nil =>
    intro i m _
    refine ⟨m, rfl, ?_, ?_, ?_⟩
    · intro k
      simp
    · intro j name hj
      simp at hj
    · intro k _
      rfl
  | cons col rest ih =>
    intro i m hlen
    simp only [List.length_cons] at hlen
    have hi : i < columns.length := by omega
    have hci : columns[i]? = some columns[i] := List.getElem?_eq_getElem hi
    have hname : (columns.map Column.Name)[i]? = some columns[i].Name := by
      rw [List.getElem?_map, hci]
      rfl
    obtain ⟨m', hrun, hkeys, hget, hkeep⟩ :=
      ih (i + 1) (m.set columns[i].Name col) (by omega)
    have hfresh : ∀ j, j < rest.length →
        (columns.map Column.Name)[i + 1 + j]? ≠ some columns[i].Name := by
      intro j _ hj
      have := (List.nodup_iff_getElem?_ne_getElem?.mp hnd) i (i + 1 + j) (by omega)
        (by simp; omega)
      exact this (hname.trans hj.symm)
    refine ⟨m', ?_, ?_, ?_, ?_⟩
    · rw [buildRowFrom, hci]
      exact hrun
    · intro k
      rw [hkeys k, GoMap.mem_keys_set]
      constructor
      · rintro ((rfl | hk) | ⟨j, hj, hjk⟩)
        · exact Or.inr ⟨0, by simp, by simpa using hname⟩
        · exact Or.inl hk
        · exact Or.inr ⟨j + 1, by simpa using hj, by rw [← hjk]; congr 1; omega⟩
      · rintro (hk | ⟨j, hj, hjk⟩)
        · exact Or.inl (Or.inr hk)
        · cases j with
          | zero =>
            rw [Nat.add_zero, hname] at hjk
            exact Or.inl (Or.inl (Option.some.inj hjk).symm)
          | succ j' =>
            refine Or.inr ⟨j', by simpa using hj, ?_⟩
            rw [← hjk]
            congr 1
            omega
    · intro j name hj hjn
      cases j with
      | zero =>
        rw [Nat.add_zero, hname] at hjn
        obtain rfl := Option.some.inj hjn
        rw [hkeep _ hfresh, GoMap.get?_set_self]
        simp
      | succ j' =>
        rw [List.getElem?_cons_succ]
        apply hget j' name (by simpa using hj)
        rw [← hjn]
        congr 1
        omega
    · intro k hk
      have hk0 : k ≠ columns[i].Name := by
        intro e
        apply hk 0 (by simp)
        rw [Nat.add_zero, hname, e]
      rw [hkeep k, GoMap.get?_set_other _ _ _ _ hk0]
      intro j hj hjk
      apply hk (j + 1) (by simpa using hj)
      rw [← hjk]
      congr 1
      omega

theorem buildRowFrom_rowOf (columns : List Column) (hnd : (columns.map Column.Name).Nodup)
    (row : List Value) (hlen : row.length = columns.length) :
    ∃ m, buildRowFrom columns 0 row GoMap.empty = Except.ok m ∧
      RowOf (columns.map Column.Name) m row := by
  obtain ⟨m, hrun, hkeys, hget, _⟩ :=
    buildRowFrom_spec columns hnd row 0 GoMap.empty (by omega)
  refine ⟨m, hrun, ?_, ?_⟩
  · intro k
    rw [hkeys k]
    constructor
    · rintro (hk | ⟨j, _, hj⟩)
      · simp [GoMap.keys, GoMap.empty] at hk
      · rw [Nat.zero_add] at hj
        exact List.mem_iff_getElem?.mpr ⟨j, hj⟩
    · intro hk
      obtain ⟨j, hj⟩ := List.mem_iff_getElem?.mp hk
      refine Or.inr ⟨j, ?_, by rw [Nat.zero_add]; exact hj⟩
      obtain ⟨h, _⟩ := List.getElem?_eq_some.mp hj
      simpa [hlen] using h
  · intro j name hj
    obtain ⟨h, _⟩ := List.getElem?_eq_some.mp hj
    apply hget j name (by simpa [hlen] using h)
    simpa using hj

theorem buildKvsFrom_spec (columns : List Column) (hnd : (columns.map Column.Name).Nodup) :
    ∀ (dataSets : List (List Value)) (kvs : List GoMap),
      (∀ row ∈ dataSets, row.length = columns.length) →
      ∃ ms, buildKvsFrom columns dataSets kvs = Except.ok (kvs ++ ms) ∧
        List.Forall₂ (RowOf (columns.map Column.Name)) ms dataSets := by
  intro dataSets
  induction dataSets with
  | nil =>
    intro kvs _
    exact ⟨[], by simp [buildKvsFrom], List.Forall₂.nil⟩
  | cons row rest ih =>
    intro kvs hlen
    obtain ⟨m, hrun, hrow⟩ := buildRowFrom_rowOf columns hnd row (hlen row (by simp))
    obtain ⟨ms, hrest, hall⟩ := ih (kvs ++ [m]) (fun r hr => hlen r (List.mem_cons_of_mem _ hr))
    refine ⟨m :: ms, ?_, List.Forall₂.cons hrow hall⟩
    rw [buildKvsFrom, hrun]
    simpa using hrest

theorem buildColNames_eq (results : Results) :
    buildColNames results = results.Columns.map Column.Name := by
  unfold buildColNames
  rw [foldl_append_singleton Column.Name results.Columns []]
  simp

/-- C8: for pairwise distinct column names and raw rows that each have
`len(columnNames)` entries, building the row list succeeds; `kvs` has the
length and order of the raw rows, the key set of `kvs[i]` is exactly the column
names, and `kvs[i][columnNames[j]]` is `rawRows[i][j]` for every `i` and `j`. -/
theorem buildKvs_maps_columns (results : Results)
    (hnd : (buildColNames results).Nodup)
    (hlen : ∀ row ∈ results.DataSets, row.length = results.Columns.length) :
    ∃ kvs : List GoMap,
      buildKvs results = Except.ok kvs ∧
      kvs.length = results.DataSets.length ∧
      ∀ (i : Nat) (row : List Value), results.DataSets[i]? = some row →
        ∃ kv : GoMap, kvs[i]? = some kv ∧
          (∀ k, k ∈ kv.keys ↔ k ∈ buildColNames results) ∧
          ∀ (j : Nat) (name : String), (buildColNames results)[j]? = some name →
            kv.get? name = row[j]? := by
  rw [buildColNames_eq] at hnd ⊢
  obtain ⟨ms, hrun, hall⟩ := buildKvsFrom_spec results.Columns hnd results.DataSets [] hlen
  rw [List.nil_append] at hrun
  obtain ⟨hl, hget⟩ := List.forall₂_iff_get.mp hall
  refine ⟨ms, hrun, hl, ?_⟩
  intro i row hrow
  obtain ⟨hi, hrow'⟩ := List.getElem?_eq_some.mp hrow
  have hi' : i < ms.length := by omega
  refine ⟨ms[i], List.getElem?_eq_getElem hi', ?_⟩
  have h := hget i hi' hi
  simp only [List.get_eq_getElem] at h
  rw [hrow'] at h
  exact h

theorem buildKvs_sample :
    ∃ kvs : List GoMap, buildKvs sampleResults = Except.ok kvs ∧ kvs.length = 2 ∧
      kvs.map GoMap.keys = [["a", "b"], ["a", "b"]] :=
  ⟨_, rfl, rfl, by decide⟩

/-- C8, on two columns and two rows: the second row maps `b` to `"x"`. -/
theorem buildKvs_maps_columns_witness :
    ∃ kvs : List GoMap, buildKvs sampleResults = Except.ok kvs ∧ kvs.length = 2 ∧
      ∃ kv : GoMap, kvs[1]? = some kv ∧ kv.get? "b" = some (Value.str "x") := by
  obtain ⟨kvs, h1, h2, h3⟩ := buildKvs_maps_columns sampleResults (by decide) (by decide)
  obtain ⟨kv, h4, _, h5⟩ := h3 1 [Value.int 2, Value.str "x"] rfl
  exact ⟨kvs, h1, h2, kv, h4, h5 1 "b" rfl⟩

/-! ## The spreadsheet branch -/

theorem xlsxRowFrom_panics (line : Nat) (value : String → Value) :
    ∀ (colNames : List String) (j : Nat) (cells : List CellWrite),
      j ≤ 26 → 26 < j + colNames.length →
      xlsxRowFrom line value j colNames cells = Except.error (Failure.indexOutOfRange 26 26) := by
  intro colNames
  induction colNames with
  | nil =>
    intro j cells h1 h2
    simp at h2
    omega
  | cons colName rest ih =>
    intro j cells h1 h2
    by_cases hj : j = 26
    · subst hj
      rfl
    · have hlt : j < exfCols.length := by
        have : exfCols.length = 26 := rfl
        omega
      rw [xlsxRowFrom, List.getElem?_eq_getElem hlt]
      apply ih (j + 1) _ (by omega)
      simp only [List.length_cons] at h2
      omega

theorem xlsxCells_panics (colNames : List String) (kvs : List GoMap)
    (h : 26 < colNames.length) :
    xlsxCells colNames kvs = Except.error (Failure.indexOutOfRange 26 26) := by
  unfold xlsxCells
  rw [xlsxRowFrom_panics 1 Value.str colNames 0 [] (by omega) (by omega)]

/-- C6: with 27 columns the spreadsheet branch stops in the header loop with an
index-out-of-range panic at `exfCols[26]`, for every row list: no cell write is
kept and nothing reaches the buffer. -/
theorem xlsx_27_columns_panics :
    columns27.length = 27 ∧
    ∀ (kvs : List GoMap) (order : MapOrder) (sqlStr : String),
      xlsxCells columns27 kvs = Except.error (Failure.indexOutOfRange 26 26) ∧
      renderFormat sampleLib order "xlsx" columns27 kvs sqlStr =
        Except.error (Failure.indexOutOfRange 26 26) := by
  refine ⟨rfl, ?_⟩
  intro kvs order sqlStr
  have h := xlsxCells_panics columns27 kvs (by decide)
  refine ⟨h, ?_⟩
  unfold renderFormat
  simp [h]

/-! ## The format switch -/

/-- C9 as stated fails: the identifier `foo` is none of the nine formats, yet the
switch signals nothing and fills the buffer with the plain rendering. -/
theorem renderFormat_unknown_not_rejected :
    "foo" ∉ knownFormats ∧
    renderFormat sampleLib reverseOrder "foo" ["c"] [GoMap.single "c" (Value.int 1)] "" =
      Except.ok (utf8 "c=1\n") := by
  constructor
  · decide
  · rfl

/-- C9, amended: for every format string that is none of table, markdown, html,
csv, json, yaml, xml, xlsx, plain, the switch takes its default branch, the
plain renderer: it signals no error, and the buffer holds the plain rendering,
the same bytes as for the format `plain`. -/
theorem renderFormat_unknown_is_plain (lib : Lib) (order : MapOrder) (format : String)
    (colNames : List String) (kvs : List GoMap) (sqlStr : String)
    (hunknown : format ∉ knownFormats) :
    renderFormat lib order format colNames kvs sqlStr =
        Except.ok (renderPlain [] colNames kvs) ∧
    renderFormat lib order format colNames kvs sqlStr =
        renderFormat lib order "plain" colNames kvs sqlStr := by
  simp only [knownFormats, List.mem_cons, List.mem_singleton, List.not_mem_nil, or_false,
    not_or] at hunknown
  obtain ⟨h1, h2, h3, h4, h5, h6, h7, h8, _⟩ := hunknown
  have hplain : renderFormat lib order "plain" colNames kvs sqlStr =
      Except.ok (renderPlain [] colNames kvs) := by
    unfold renderFormat
    simp
  have hfmt : renderFormat lib order format colNames kvs sqlStr =
      Except.ok (renderPlain [] colNames kvs) := by
    unfold renderFormat
    simp [h1, h2, h3, h4, h5, h6, h7, h8]
  exact ⟨hfmt, hfmt.trans hplain.symm⟩

/-- C9, amended, at the format `foo`. -/
theorem renderFormat_unknown_is_plain_witness :
    renderFormat sampleLib reverseOrder "foo" ["c"] [GoMap.single "c" (Value.int 1)] "" =
      renderFormat sampleLib reverseOrder "plain" ["c"] [GoMap.single "c" (Value.int 1)] "" :=
  (renderFormat_unknown_is_plain sampleLib reverseOrder "foo" ["c"]
    [GoMap.single "c" (Value.int 1)] "" (by decide)).2

/-! ## The XML document -/

theorem lookup_of_mem (es : List (String × Value)) (hnd : (es.map Prod.fst).Nodup)
    (k : String) (v : Value) (h : (k, v) ∈ es) : lookupEntries es k = some v := by
  induction es with
  | nil => simp at h
  | cons p rest ih =>
    obtain ⟨k', v'⟩ := p
    rw [List.map_cons, List.nodup_cons] at hnd
    rcases List.mem_cons.mp h with heq | hmem
    · obtain ⟨rfl, rfl⟩ := Prod.mk.inj heq
      simp [lookupEntries]
    · have hne : k' ≠ k := by
        intro e
        apply hnd.1
        rw [e]
        exact List.mem_map.mpr ⟨(k, v), hmem, rfl⟩
      simp [lookupEntries, hne, ih hnd.2 hmem]

theorem xmlRow_eq (visited : List (String × Value)) :
    xmlRow visited = ⟨visited.map (fun kv => ⟨kv.1, kv.2⟩)⟩ := by
  have h : ∀ (l : List (String × Value)) (row : XMLRow),
      l.foldl (fun (row : XMLRow) kv => { row with Value := row.Value ++ [⟨kv.1, kv.2⟩] }) row =
        ⟨row.Value ++ l.map (fun kv => ⟨kv.1, kv.2⟩)⟩ := by
    intro l
    induction l with
    | nil => simp
    | cons a rest ih =>
      intro row
      rw [List.foldl_cons, ih]
      simp
  unfold xmlRow
  rw [h]
  simp

theorem xmlRowsFrom_length (order : MapOrder) (data : List GoMap) :
    ∀ i, (xmlRowsFrom order i data).length = data.length := by
  induction data with
  | nil => simp [xmlRowsFrom]
  | cons item rest ih => simp [xmlRowsFrom, ih]

theorem xmlRowsFrom_getElem? (order : MapOrder) (data : List GoMap) :
    ∀ (i j : Nat) (item : GoMap), data[j]? = some item →
      (xmlRowsFrom order i data)[j]? = some (xmlRow (order (i + j) item)) := by
  induction data with
  | nil => simp
  | cons a rest ih =>
    intro i j item h
    cases j with
    | zero =>
      simp only [List.getElem?_cons_zero, Option.some.injEq] at h
      subst h
      simp [xmlRowsFrom]
    | succ j' =>
      rw [List.getElem?_cons_succ] at h
      rw [xmlRowsFrom, List.getElem?_cons_succ, ih (i + 1) j' item h]
      congr 3
      omega

/-- C7 as stated fails: on the two columns `a`, `b` and two rows, with statement
`SELECT 1`, a `range` that visits `b` before `a` gives two row elements whose
field names are `b`, `a`, not the column list `a`, `b`. -/
theorem xmlResultSet_field_order_not_columns :
    ∃ order : MapOrder, order.Valid ∧
      ∃ kvs : List GoMap, buildKvs sampleResults = Except.ok kvs ∧
        (xmlResultSet order kvs "SELECT 1").Value.map
            (fun row => row.Value.map XMLField.Name) = [["b", "a"], ["b", "a"]] ∧
        ∀ row ∈ (xmlResultSet order kvs "SELECT 1").Value,
          row.Value.map XMLField.Name ≠ buildColNames sampleResults := by
  refine ⟨reverseOrder, fun _ m => List.reverse_perm m.entries, ?_⟩
  obtain ⟨kvs, h1, _, _⟩ := buildKvs_sample
  refine ⟨kvs, h1, ?_⟩
  have hk : kvs = [(GoMap.empty.set "a" (Value.int 1)).set "b" Value.nil,
      (GoMap.empty.set "a" (Value.int 2)).set "b" (Value.str "x")] := by
    have h2 : buildKvs sampleResults =
        Except.ok [(GoMap.empty.set "a" (Value.int 1)).set "b" Value.nil,
          (GoMap.empty.set "a" (Value.int 2)).set "b" (Value.str "x")] := rfl
    rw [h1] at h2
    exact Except.ok.inj h2
  subst hk
  constructor
  · decide
  · decide

/-- C7, amended: for every order in which `range` may visit a map, the document
of `printXML` carries the statement and has one row element per row of its
input, in row order; when every row's key set is the set of the pairwise
distinct columns, the field names of each row element are a permutation of the
column list (one field per column, nil-valued columns included) and each field
carries its row's value for its name. The order of the fields is the order of
the visit. -/
theorem xmlResultSet_rows_fields (order : MapOrder) (hvalid : order.Valid)
    (colNames : List String) (hnd : colNames.Nodup) (data : List GoMap)
    (htotal : ∀ item ∈ data, ∀ k, k ∈ item.keys ↔ k ∈ colNames) (sqlStr : String) :
    (xmlResultSet order data sqlStr).Statement = sqlStr ∧
    (xmlResultSet order data sqlStr).Value.length = data.length ∧
    ∀ (i : Nat) (item : GoMap), data[i]? = some item →
      ∃ row : XMLRow, (xmlResultSet order data sqlStr).Value[i]? = some row ∧
        (row.Value.map XMLField.Name).Perm colNames ∧
        ∀ f ∈ row.Value, item.get? f.Name = some f.Value := by
  refine ⟨rfl, xmlRowsFrom_length order data 0, ?_⟩
  intro i item hitem
  refine ⟨xmlRow (order (0 + i) item), xmlRowsFrom_getElem? order data 0 i item hitem, ?_, ?_⟩
  · rw [xmlRow_eq]
    have hperm : ((order (0 + i) item).map Prod.fst).Perm item.keys :=
      (hvalid (0 + i) item).map Prod.fst
    have hnames : (List.map (fun kv : String × Value => (⟨kv.1, kv.2⟩ : XMLField))
        (order (0 + i) item)).map XMLField.Name = (order (0 + i) item).map Prod.fst := by
      rw [List.map_map]
      rfl
    rw [hnames]
    refine hperm.trans ?_
    apply (List.perm_ext_iff_of_nodup item.nodup hnd).mpr
    exact htotal item (List.mem_iff_getElem?.mpr ⟨i, hitem⟩)
  · intro f hf
    rw [xmlRow_eq] at hf
    obtain ⟨kv, hkv, rfl⟩ := List.mem_map.mp hf
    have hmem : kv ∈ item.entries := (hvalid (0 + i) item).mem_iff.mp hkv
    exact lookup_of_mem item.entries item.nodup kv.1 kv.2 hmem

/-- C7, amended, on two rows over the columns `a`, `b` visited in reverse: two
row elements, the first with the fields `b`, `a`. -/
theorem xmlResultSet_rows_fields_witness :
    (xmlResultSet reverseOrder
        [(GoMap.empty.set "a" (Value.int 1)).set "b" Value.nil,
          (GoMap.empty.set "a" (Value.int 2)).set "b" (Value.str "x")]
        "SELECT 1").Value.length = 2 :=
  (xmlResultSet_rows_fields reverseOrder (fun _ m => List.reverse_perm m.entries)
    ["a", "b"] (by decide)
    [(GoMap.empty.set "a" (Value.int 1)).set "b" Value.nil,
      (GoMap.empty.set "a" (Value.int 2)).set "b" (Value.str "x")]
    (by
      intro item hitem k
      simp only [List.mem_cons, List.mem_singleton, List.not_mem_nil, or_false] at hitem
      rcases hitem with rfl | rfl <;>
        · rw [GoMap.mem_keys_set, GoMap.mem_keys_set]
          simp [GoMap.keys, GoMap.empty, or_comm])
    "SELECT 1").2.1

end DbExporter
